import Mathlib

/-!
Verification of the spreadsheet-cleaning service (main.go).

The development shallowly embeds the row-transformation pipeline
(CleanSpreadsheet) and the response-shaping logic of uploadHandler.

Modelling conventions:
* A sheet is the list of rows that excelize GetRows returns (each row a list
  of cell strings).  excelize RemoveRow removes one 1-indexed row, shifting
  later rows up; it errors when the row number is below 1 and is a no-op
  when the row number exceeds the current row count.  UnmergeCell removes a
  merge record and leaves the stored cell values unchanged, so it does not
  affect the values GetRows returns.
* strconv.ParseFloat / strconv.FormatFloat(_, 'f', -1, 64) are modelled on
  the finite decimal fragment, with exact decimal values (an integer
  mantissa times a power of ten) in place of IEEE rounding.  The special
  forms Inf/Infinity/NaN, hexadecimal floats and out-of-range magnitudes
  are outside the model.  Underscore digit separators are modelled as in
  strconv (accepted only between digits).
* encoding/csv Writer is modelled with its default configuration
  (comma separator, LF line ends, quoting per fieldNeedsQuotes).
-/

namespace CleanSvc

/-! ## Decimal numbers: the exact-decimal model of float64 values -/

/-- An exact decimal value `m * 10 ^ e`.  `ParseFloat` results and the
values handed to `FormatFloat` are represented this way. -/
structure Dec where
  m : Int
  e : Int
deriving DecidableEq, Repr

/-- Negation of a decimal value (the only arithmetic the source performs
on a parsed amount: `-amount`). -/
def Dec.neg (d : Dec) : Dec := ⟨-d.m, d.e⟩

def isDigitCh (c : Char) : Bool := '0' ≤ c && c ≤ '9'

def isDigitOrUnderscore (c : Char) : Bool := isDigitCh c || c = '_'

def digitVal (c : Char) : Nat := c.toNat - 48

/-- Value of a most-significant-first digit string. -/
def charsToNat (l : List Char) : Nat := l.foldl (fun a c => 10 * a + digitVal c) 0

def digitChar (d : Nat) : Char :=
  if d = 0 then '0' else if d = 1 then '1' else if d = 2 then '2'
  else if d = 3 then '3' else if d = 4 then '4' else if d = 5 then '5'
  else if d = 6 then '6' else if d = 7 then '7' else if d = 8 then '8' else '9'

/-- Little-endian digit characters of `n` (empty for 0), with explicit fuel. -/
def natDigitsRev : Nat → Nat → List Char
  | 0, _ => []
  | fuel + 1, n => if n = 0 then [] else digitChar (n % 10) :: natDigitsRev fuel (n / 10)

/-- Most-significant-first digit characters of `n` (empty for 0). -/
def natToChars (n : Nat) : List Char := (natDigitsRev n n).reverse

/-- strconv.underscoreOK: every underscore must sit between two digits.
`saw` is the class of the previous character as in the Go source
(`^` start, `0` digit, `_` underscore, `!` other). -/
def underscoreOKAux : Char → List Char → Bool
  | saw, [] => saw ≠ '_'
  | saw, c :: cs =>
    if isDigitCh c then underscoreOKAux '0' cs
    else if c = '_' then saw = '0' && underscoreOKAux '_' cs
    else if saw = '_' then false
    else underscoreOKAux '!' cs

def underscoreOK (s : List Char) : Bool :=
  match s with
  | c :: cs => if c = '-' || c = '+' then underscoreOKAux '^' cs else underscoreOKAux '^' s
  | [] => underscoreOKAux '^' s

/-- The unsigned part of strconv's readFloat on the decimal grammar:
`digits [. digits] [(e|E) [sign] digits]`, digits possibly containing
underscores, at least one mantissa digit, the whole input consumed.
Returns the mantissa digits value and the decimal exponent. -/
def parseUnsigned (s : List Char) : Option (Nat × Int) :=
  let ip := s.takeWhile isDigitOrUnderscore
  let r1 := s.dropWhile isDigitOrUnderscore
  let hasDot : Bool := match r1 with | '.' :: _ => true | _ => false
  let afterDot := match r1 with | '.' :: cs => cs | _ => r1
  let fp := if hasDot then afterDot.takeWhile isDigitOrUnderscore else []
  let r2 := if hasDot then afterDot.dropWhile isDigitOrUnderscore else r1
  let ipd := ip.filter isDigitCh
  let fpd := fp.filter isDigitCh
  if (ipd ++ fpd).isEmpty then none
  else
    let expVal : Option Int :=
      match r2 with
      | [] => some 0
      | c :: cs =>
        if c = 'e' || c = 'E' then
          let esgn : Int := match cs with | '-' :: _ => -1 | '+' :: _ => 1 | _ => 1
          let c1 := match cs with | '-' :: ds => ds | '+' :: ds => ds | _ => cs
          match c1 with
          | [] => none
          | d :: _ =>
            if isDigitCh d then
              if (c1.dropWhile isDigitOrUnderscore).isEmpty then
                some (esgn * (charsToNat (c1.takeWhile isDigitOrUnderscore |>.filter isDigitCh) : Int))
              else none
            else none
        else none
    match expVal with
    | none => none
    | some ex => some (charsToNat (ipd ++ fpd), ex - fpd.length)

/-- strconv.ParseFloat on the finite decimal fragment (see the header
comment for the model's scope): optional sign, decimal mantissa, optional
exponent, optional underscores between digits; the result is the exact
decimal value. -/
def parseDec (s : List Char) : Option Dec :=
  if s.contains '_' && !underscoreOK s then none
  else
    match s with
    | [] => none
    | c :: cs =>
      if c = '-' then (parseUnsigned cs).map fun p => ⟨-(p.1 : Int), p.2⟩
      else if c = '+' then (parseUnsigned cs).map fun p => ⟨(p.1 : Int), p.2⟩
      else (parseUnsigned (c :: cs)).map fun p => ⟨(p.1 : Int), p.2⟩

def parseGoFloat (s : String) : Option Dec := parseDec s.data

/-- Strip factors of ten from `a`, moving them into the exponent;
fuel-driven, called with fuel `a`. -/
def stripTZ : Nat → Nat → Int → Nat × Int
  | 0, a, e => (a, e)
  | fuel + 1, a, e =>
    if a ≠ 0 ∧ a % 10 = 0 then stripTZ fuel (a / 10) (e + 1) else (a, e)

/-- Normal form of a decimal value: trailing zero factors of the mantissa
moved into the exponent (the shortest-digits choice FormatFloat makes). -/
def normDec (d : Dec) : Dec :=
  let a := d.m.natAbs
  let p := stripTZ a a d.e
  ⟨if d.m < 0 then -(p.1 : Int) else (p.1 : Int), p.2⟩

/-- The unsigned digit body written by FormatFloat in 'f' mode for the
value `a * 10 ^ e` with `a` the shortest (trailing-zero-free) mantissa:
the digit string with `e` appended zeros, or with the decimal point
inserted `-e` digits from the right. -/
def fmtBody (a : Nat) (e : Int) : List Char :=
  let ds := natToChars a
  if 0 ≤ e then ds ++ List.replicate e.toNat '0'
  else
    let k := (-e).toNat
    if k < ds.length then ds.take (ds.length - k) ++ '.' :: ds.drop (ds.length - k)
    else '0' :: '.' :: (List.replicate (k - ds.length) '0' ++ ds)

/-- strconv.FormatFloat(v, 'f', -1, 64) on an exact decimal value:
shortest digit string, plain decimal notation, no exponent. -/
def formatDec (d : Dec) : String :=
  let n := normDec d
  if n.m = 0 then "0"
  else String.mk (if n.m < 0 then '-' :: fmtBody n.m.natAbs n.e else fmtBody n.m.natAbs n.e)

/-! ## The workbook model -/

abbrev Row := List String

/-- One sheet: its name, its merge regions (start/end axis pairs as
excelize GetMergeCells reports them) and the row grid GetRows returns. -/
structure Sheet where
  name : String
  merges : List (String × String)
  rows : List Row
deriving DecidableEq

abbrev Workbook := List Sheet

instance {ε α : Type} [DecidableEq ε] [DecidableEq α] : DecidableEq (Except ε α) := fun a b =>
  match a, b with
  | .error e1, .error e2 =>
    if h : e1 = e2 then .isTrue (by rw [h]) else .isFalse (by simp [h])
  | .error _, .ok _ => .isFalse (by simp)
  | .ok _, .error _ => .isFalse (by simp)
  | .ok x, .ok y =>
    if h : x = y then .isTrue (by rw [h]) else .isFalse (by simp [h])

/-- excelize RemoveRow on the row list: errors when the row number is
below 1, is a no-op when it exceeds the current row count, otherwise
removes the 1-indexed row (later rows shift up). -/
def removeRow (rows : List Row) (r : Int) : Except String (List Row) :=
  if r < 1 then .error "invalid row number"
  else if (rows.length : Int) < r then .ok rows
  else .ok (rows.eraseIdx (r - 1).toNat)

/-- The header/footer trim of CleanSpreadsheet: RemoveRow(sheet, i) for
i = 1..25, then a re-read of the rows and RemoveRow(sheet, i+1) for
i = len(rows)-14 .. len(rows)-1, each removal against the live,
re-indexing collection. -/
def trimSheet (rows : List Row) : Except String (List Row) :=
  match (List.range 25).foldlM (fun rs i => removeRow rs ((i : Int) + 1)) rows with
  | .error e => .error e
  | .ok r1 =>
    (List.range 14).foldlM
      (fun rs k => removeRow rs ((r1.length : Int) - 14 + (k : Int) + 1)) r1

/-- strings.Replace(s, ",", "", -1). -/
def stripCommas (s : String) : String := String.mk (s.data.filter fun c => c ≠ ',')

/-- strings.HasPrefix(s, "-"). -/
def startsWithNeg (s : String) : Bool :=
  match s.data with
  | c :: _ => c = '-'
  | [] => false

/-- The body of the per-row loop of CleanSpreadsheet.  `none` means the
row is skipped; `some (isCredit, record)` means exactly one record is
written, to the credit writer when `isCredit` and to the debit writer
otherwise. -/
def processRow (rowIndex : Nat) (row : Row) : Option (Bool × List String) :=
  if rowIndex = 0 ∨ row.length < 39 then none
  else
    let amountStr := stripCommas (row.getD 37 "")
    if amountStr = "" ∨ amountStr = "Amount" then none
    else
      match parseGoFloat amountStr with
      | none => none
      | some amount =>
        let formattedAmount := formatDec amount
        let newRow := [row.getD 0 "", row.getD 24 "", formattedAmount]
        if startsWithNeg amountStr then
          some (true, newRow.set 2 (formatDec (Dec.neg amount)))
        else
          some (false, newRow)

/-- All records a trimmed row list contributes, in row order. -/
def sheetRecords (rows : List Row) : List (Bool × List String) :=
  rows.enum.filterMap fun p => processRow p.1 p.2

/-- One iteration of the per-sheet loop: unmerge (no effect on values),
trim, re-read, skip when empty, else run the row loop. -/
def cleanSheet (s : Sheet) : Except String (List (Bool × List String)) :=
  match trimSheet s.rows with
  | .error e => .error e
  | .ok trimmed =>
    if trimmed.isEmpty then .ok []
    else .ok (sheetRecords trimmed)

/-- Record stream of the whole workbook, sheet by sheet, first error wins. -/
def ledgerOf : Workbook → Except String (List (Bool × List String))
  | [] => .ok []
  | s :: rest =>
    match cleanSheet s with
    | .error e => .error e
    | .ok r =>
      match ledgerOf rest with
      | .error e => .error e
      | .ok rs => .ok (r ++ rs)

/-! ## encoding/csv Writer (default configuration) -/

/-- unicode.IsSpace. -/
def goIsSpace (c : Char) : Bool :=
  c = ' ' || c = '\t' || c = '\n' || c = '\x0b' || c = '\x0c' || c = '\r' ||
  c.toNat = 0x85 || c.toNat = 0xA0 || c.toNat = 0x1680 ||
  (0x2000 ≤ c.toNat && c.toNat ≤ 0x200A) || c.toNat = 0x2028 || c.toNat = 0x2029 ||
  c.toNat = 0x202F || c.toNat = 0x205F || c.toNat = 0x3000

/-- csv.Writer.fieldNeedsQuotes with the default comma separator. -/
def fieldNeedsQuotes (f : String) : Bool :=
  if f = "" then false
  else if f = "\\." then true
  else if f.data.any (fun c => c = ',' || c = '"' || c = '\r' || c = '\n') then true
  else goIsSpace (f.data.headD 'x')

/-- A quoted csv field with doubled quotes (UseCRLF is false, so CR and
LF inside a quoted field are written through unchanged). -/
def quoteField (f : String) : String :=
  String.mk ('"' :: (f.data.flatMap fun c => if c = '"' then ['"', '"'] else [c]) ++ ['"'])

def csvField (f : String) : String := if fieldNeedsQuotes f then quoteField f else f

/-- csv.Writer.Write of one record followed by the LF terminator. -/
def csvLine (r : List String) : String :=
  String.intercalate "," (r.map csvField) ++ "\n"

/-- CleanSpreadsheet: the pair (creditCSV, debitCSV) built from the
record stream; each writer receives its records in stream order. -/
def CleanSpreadsheet (wb : Workbook) : Except String (String × String) :=
  (ledgerOf wb).map fun recs =>
    (String.join ((recs.filter fun pr => pr.1).map fun pr => csvLine pr.2),
     String.join ((recs.filter fun pr => !pr.1).map fun pr => csvLine pr.2))

/-- The response-shaping logic of uploadHandler after the transform ran:
a transform error or two empty blobs yield an HTTP error and no archive;
otherwise the archive holds exactly the two named entries. -/
def uploadRespond (result : Except String (String × String)) : Except String (List (String × String)) :=
  match result with
  | .error e => .error ("Error processing file: " ++ e)
  | .ok (creditCSV, debitCSV) =>
    if creditCSV = "" ∧ debitCSV = "" then .error "No data processed from the file"
    else .ok [("credits.csv", creditCSV), ("debits.csv", debitCSV)]

/-! ## Concrete workbooks used as test inputs -/

/-- A row of the fixed report layout: reference in column 0, memo in
column 24, amount in column 37, padded to 39 cells. -/
def mkDataRow (ref memo amount : String) : Row :=
  ref :: List.replicate 23 "" ++ memo :: List.replicate 12 "" ++ [amount, "x"]

/-- 40 one-cell rows whose cell names their original 1-indexed position. -/
def rows40 : List Row := (List.range 40).map fun i => [String.mk (natToChars (i + 1))]

/-- The end-to-end workbook of the spec: 26 header rows, one data row
(reference REF1, memo MEMO1, amount -100), 14 footer rows. -/
def wbEndToEnd : Workbook :=
  [⟨"Sheet1", [],
    List.replicate 26 ["h"] ++ mkDataRow "REF1" "MEMO1" "-100" :: List.replicate 14 ["f"]⟩]

/-- A 41-row sheet whose 4th row (1-indexed) is a valid data row; after
the trim it sits at row index 1 of the 13 remaining rows. -/
def rows41 : List Row :=
  (List.range 41).map fun i => if i = 3 then mkDataRow "REF" "MEMO" "500" else ["x"]

def wbFewRows : Workbook := [⟨"S", [], rows41⟩]

/-- A workbook whose first sheet has no rows, followed by a sheet that
would produce a record. -/
def wbEmptySheet : Workbook := [⟨"Empty", [], []⟩, ⟨"Good", [], rows41⟩]

/-- 28 one-cell rows: the smallest sheet the trim survives. -/
def rows28 : List Row := (List.range 28).map fun i => [String.mk (natToChars (i + 1))]

/-! ## Helper lemmas: digit characters and digit strings -/

def digitCharList : List Char := ['0', '1', '2', '3', '4', '5', '6', '7', '8', '9']

theorem digitChar_mem (d : Nat) : digitChar d ∈ digitCharList := by
  unfold digitChar digitCharList
  split_ifs <;> simp

theorem digitVal_digitChar (d : Nat) (h : d < 10) : digitVal (digitChar d) = d := by
  unfold digitChar
  split_ifs with h0 h1 h2 h3 h4 h5 h6 h7 h8
  · subst h0; decide
  · subst h1; decide
  · subst h2; decide
  · subst h3; decide
  · subst h4; decide
  · subst h5; decide
  · subst h6; decide
  · subst h7; decide
  · subst h8; decide
  · have h9 : d = 9 := by omega
    subst h9; decide

theorem isDigitCh_of_mem {c : Char} (h : c ∈ digitCharList) : isDigitCh c = true := by
  fin_cases h <;> decide

theorem isDigitOrUnderscore_of_mem {c : Char} (h : c ∈ digitCharList) :
    isDigitOrUnderscore c = true := by
  fin_cases h <;> decide

theorem ne_of_mem_digitCharList {c : Char} (h : c ∈ digitCharList) :
    c ≠ '-' ∧ c ≠ '+' ∧ c ≠ '_' ∧ c ≠ '.' ∧ c ≠ ',' := by
  fin_cases h <;> refine ⟨by decide, by decide, by decide, by decide, by decide⟩

theorem mem_natDigitsRev {c : Char} : ∀ {fuel n : Nat}, c ∈ natDigitsRev fuel n → c ∈ digitCharList
  | 0, _, h => by simp [natDigitsRev] at h
  | fuel + 1, n, h => by
    unfold natDigitsRev at h
    split at h
    · simp at h
    · rcases List.mem_cons.mp h with h | h
      · exact h ▸ digitChar_mem (n % 10)
      · exact mem_natDigitsRev h

theorem mem_natToChars {c : Char} {n : Nat} (h : c ∈ natToChars n) : c ∈ digitCharList :=
  mem_natDigitsRev (List.mem_reverse.mp h)

theorem foldl_charsToNat (l : List Char) :
    ∀ a : Nat, l.foldl (fun a c => 10 * a + digitVal c) a = a * 10 ^ l.length + charsToNat l := by
  induction l with
  | nil => intro a; simp [charsToNat]
  | cons c cs ih =>
    intro a
    have hrhs : charsToNat (c :: cs) = digitVal c * 10 ^ cs.length + charsToNat cs := by
      have hstep : charsToNat (c :: cs) =
          cs.foldl (fun a c => 10 * a + digitVal c) (10 * 0 + digitVal c) := rfl
      rw [hstep, ih (10 * 0 + digitVal c)]
      ring
    simp only [List.foldl_cons, List.length_cons, hrhs]
    rw [ih (10 * a + digitVal c)]
    ring

theorem charsToNat_append (l1 l2 : List Char) :
    charsToNat (l1 ++ l2) = charsToNat l1 * 10 ^ l2.length + charsToNat l2 := by
  unfold charsToNat
  rw [List.foldl_append]
  exact foldl_charsToNat l2 _

theorem charsToNat_replicate_zero (k : Nat) : charsToNat (List.replicate k '0') = 0 := by
  induction k with
  | zero => rfl
  | succ k ih =>
    have h1 : charsToNat (List.replicate (k + 1) '0') =
        (List.replicate k '0').foldl (fun a c => 10 * a + digitVal c) (10 * 0 + digitVal '0') := by
      rw [List.replicate_succ]; rfl
    have h2 : 10 * 0 + digitVal '0' = 0 := by decide
    rw [h1, h2]
    exact ih

theorem charsToNat_append_zeros (l : List Char) (k : Nat) :
    charsToNat (l ++ List.replicate k '0') = charsToNat l * 10 ^ k := by
  rw [charsToNat_append, charsToNat_replicate_zero, List.length_replicate]
  omega

theorem charsToNat_zeros_append (k : Nat) (l : List Char) :
    charsToNat (List.replicate k '0' ++ l) = charsToNat l := by
  rw [charsToNat_append, charsToNat_replicate_zero]
  simp

theorem charsToNat_natDigitsRev : ∀ (fuel n : Nat), n ≤ fuel →
    charsToNat (natDigitsRev fuel n).reverse = n
  | 0, n, h => by
    have hn : n = 0 := by omega
    subst hn; rfl
  | fuel + 1, n, h => by
    unfold natDigitsRev
    split
    · next h0 => subst h0; rfl
    · next h0 =>
      rw [List.reverse_cons, charsToNat_append]
      have hsing : charsToNat [digitChar (n % 10)] = n % 10 := by
        have : charsToNat [digitChar (n % 10)] = 10 * 0 + digitVal (digitChar (n % 10)) := rfl
        rw [this, digitVal_digitChar _ (Nat.mod_lt _ (by norm_num))]
        omega
      have hdiv : n / 10 ≤ fuel := by
        have := Nat.div_lt_self (show 0 < n by omega) (show 1 < 10 by norm_num)
        omega
      rw [hsing, charsToNat_natDigitsRev fuel (n / 10) hdiv]
      simp only [List.length_cons, List.length_nil, pow_one]
      omega

theorem charsToNat_natToChars (n : Nat) : charsToNat (natToChars n) = n :=
  charsToNat_natDigitsRev n n le_rfl

theorem natToChars_ne_nil {n : Nat} (h : n ≠ 0) : natToChars n ≠ [] := by
  cases n with
  | zero => exact absurd rfl h
  | succ m =>
    unfold natToChars natDigitsRev
    simp

/-! ## Helper lemmas: takeWhile / dropWhile over concatenations -/

theorem takeWhile_append_all {p : Char → Bool} {l r : List Char}
    (h : ∀ c ∈ l, p c = true) : (l ++ r).takeWhile p = l ++ r.takeWhile p := by
  induction l with
  | nil => simp
  | cons c cs ih =>
    have hc : p c = true := h c (by simp)
    simp [List.takeWhile_cons, hc, ih fun x hx => h x (by simp [hx])]

theorem dropWhile_append_all {p : Char → Bool} {l r : List Char}
    (h : ∀ c ∈ l, p c = true) : (l ++ r).dropWhile p = r.dropWhile p := by
  induction l with
  | nil => simp
  | cons c cs ih =>
    have hc : p c = true := h c (by simp)
    simp [List.dropWhile_cons, hc, ih fun x hx => h x (by simp [hx])]

theorem takeWhile_all {p : Char → Bool} {l : List Char}
    (h : ∀ c ∈ l, p c = true) : l.takeWhile p = l := by
  have := takeWhile_append_all (r := []) h
  simpa using this

theorem dropWhile_all {p : Char → Bool} {l : List Char}
    (h : ∀ c ∈ l, p c = true) : l.dropWhile p = [] := by
  have := dropWhile_append_all (r := []) h
  simpa using this

theorem parseUnsigned_digits (ds : List Char) (k : Nat)
    (hds : ∀ c ∈ ds, c ∈ digitCharList) (hne : ds ≠ []) :
    parseUnsigned (ds ++ List.replicate k '0') = some (charsToNat ds * 10 ^ k, 0) := by
  have hall : ∀ c ∈ ds ++ List.replicate k '0', isDigitOrUnderscore c = true := by
    intro c hc
    rcases List.mem_append.mp hc with h | h
    · exact isDigitOrUnderscore_of_mem (hds c h)
    · rw [List.eq_of_mem_replicate h]; decide
  have hdig : ∀ c ∈ ds ++ List.replicate k '0', isDigitCh c = true := by
    intro c hc
    rcases List.mem_append.mp hc with h | h
    · exact isDigitCh_of_mem (hds c h)
    · rw [List.eq_of_mem_replicate h]; decide
  have hfil : (ds ++ List.replicate k '0').filter isDigitCh = ds ++ List.replicate k '0' :=
    List.filter_eq_self.mpr hdig
  have hnil : ds ++ List.replicate k '0' ≠ [] := by
    intro hcon
    exact hne (List.append_eq_nil.mp hcon).1
  simp only [parseUnsigned, takeWhile_all hall, dropWhile_all hall]
  simp [hfil, hnil, charsToNat_append_zeros]

theorem parseUnsigned_frac (ds1 ds2 : List Char)
    (h1 : ∀ c ∈ ds1, c ∈ digitCharList) (h2 : ∀ c ∈ ds2, c ∈ digitCharList)
    (hne : ds1 ++ ds2 ≠ []) :
    parseUnsigned (ds1 ++ '.' :: ds2) = some (charsToNat (ds1 ++ ds2), -(ds2.length : Int)) := by
  have hdot : isDigitOrUnderscore '.' = false := by decide
  have hall1 : ∀ c ∈ ds1, isDigitOrUnderscore c = true :=
    fun c hc => isDigitOrUnderscore_of_mem (h1 c hc)
  have hall2 : ∀ c ∈ ds2, isDigitOrUnderscore c = true :=
    fun c hc => isDigitOrUnderscore_of_mem (h2 c hc)
  have htw : (ds1 ++ '.' :: ds2).takeWhile isDigitOrUnderscore = ds1 := by
    rw [takeWhile_append_all hall1, List.takeWhile_cons, if_neg (by simp [hdot])]
    simp
  have hdw : (ds1 ++ '.' :: ds2).dropWhile isDigitOrUnderscore = '.' :: ds2 := by
    rw [dropWhile_append_all hall1, List.dropWhile_cons, if_neg (by simp [hdot])]
  have hfil1 : ds1.filter isDigitCh = ds1 :=
    List.filter_eq_self.mpr fun c hc => isDigitCh_of_mem (h1 c hc)
  have hfil2 : ds2.filter isDigitCh = ds2 :=
    List.filter_eq_self.mpr fun c hc => isDigitCh_of_mem (h2 c hc)
  have hnil : ds1 ++ ds2 ≠ [] := hne
  simp only [parseUnsigned, htw, hdw, takeWhile_all hall2, dropWhile_all hall2, hfil1, hfil2]
  simp [hfil1, hfil2, hnil]

/-! ## Helper lemmas: mantissa normalization -/

theorem stripTZ_pow (a : Nat) (ha : a ≠ 0) (h10 : ¬ 10 ∣ a) :
    ∀ (k fuel : Nat), k ≤ fuel → ∀ e : Int, stripTZ fuel (a * 10 ^ k) e = (a, e + k) := by
  intro k
  induction k with
  | zero =>
    intro fuel _ e
    cases fuel with
    | zero => simp [stripTZ]
    | succ f =>
      have hmod : a % 10 ≠ 0 := fun hm => h10 (Nat.dvd_of_mod_eq_zero hm)
      simp [stripTZ, hmod]
  | succ k ih =>
    intro fuel hk e
    cases fuel with
    | zero => omega
    | succ f =>
      have hne : a * 10 ^ (k + 1) ≠ 0 :=
        Nat.mul_ne_zero ha (pow_ne_zero _ (by norm_num))
      have hmod : (a * 10 ^ (k + 1)) % 10 = 0 := by
        rw [show a * 10 ^ (k + 1) = a * 10 ^ k * 10 by ring, Nat.mul_mod_left]
      have hdiv : a * 10 ^ (k + 1) / 10 = a * 10 ^ k := by
        rw [show a * 10 ^ (k + 1) = a * 10 ^ k * 10 by ring]
        exact Nat.mul_div_cancel _ (by norm_num)
      have hstep : stripTZ (f + 1) (a * 10 ^ (k + 1)) e = stripTZ f (a * 10 ^ k) (e + 1) := by
        simp only [stripTZ, if_pos (And.intro hne hmod), hdiv]
      rw [hstep, ih f (by omega) (e + 1)]
      have : e + 1 + (k : Int) = e + ((k : Nat) + 1 : Nat) := by push_cast; ring
      rw [this]

theorem exists_decomp : ∀ a : Nat, a ≠ 0 → ∃ a0 j, a0 ≠ 0 ∧ ¬ 10 ∣ a0 ∧ a = a0 * 10 ^ j := by
  intro a
  induction a using Nat.strong_induction_on with
  | _ a ih =>
    intro ha
    by_cases h10 : 10 ∣ a
    · obtain ⟨b, rfl⟩ := h10
      have hb : b ≠ 0 := by rintro rfl; simp at ha
      obtain ⟨a0, j, h1, h2, h3⟩ := ih b (by omega) hb
      exact ⟨a0, j + 1, h1, h2, by rw [h3]; ring⟩
    · exact ⟨a, 0, ha, h10, by ring⟩

theorem le_mul_pow_ten (a0 j : Nat) (ha0 : a0 ≠ 0) : j ≤ a0 * 10 ^ j := by
  have h1 : j < 10 ^ j := Nat.lt_pow_self (by norm_num) j
  have h2 : 10 ^ j ≤ a0 * 10 ^ j := Nat.le_mul_of_pos_left _ (by omega)
  omega

/-- Normalization of a mantissa given its ten-power decomposition. -/
theorem normDec_of_decomp (m e : Int) (a0 j : Nat) (ha0 : a0 ≠ 0) (h10 : ¬ 10 ∣ a0)
    (habs : m.natAbs = a0 * 10 ^ j) :
    normDec ⟨m, e⟩ = ⟨if m < 0 then -(a0 : Int) else (a0 : Int), e + j⟩ := by
  unfold normDec
  simp only [habs]
  rw [stripTZ_pow a0 ha0 h10 j _ (le_mul_pow_ten a0 j ha0) e]

theorem normDec_spec (d : Dec) (hd : d.m ≠ 0) :
    ∃ a0 j : Nat, a0 ≠ 0 ∧ ¬ 10 ∣ a0 ∧ d.m.natAbs = a0 * 10 ^ j ∧
      normDec d = ⟨if d.m < 0 then -(a0 : Int) else (a0 : Int), d.e + j⟩ := by
  have ha : d.m.natAbs ≠ 0 := Int.natAbs_ne_zero.mpr hd
  obtain ⟨a0, j, h1, h2, h3⟩ := exists_decomp _ ha
  exact ⟨a0, j, h1, h2, h3, by
    have := normDec_of_decomp d.m d.e a0 j h1 h2 h3
    simpa using this⟩

theorem normDec_zero (d : Dec) (h : d.m = 0) : normDec d = ⟨0, d.e⟩ := by
  unfold normDec
  rw [h]
  simp [stripTZ]

theorem formatDec_congr {x y : Dec} (h : normDec x = normDec y) : formatDec x = formatDec y := by
  unfold formatDec
  rw [h]

theorem formatDec_zero (d : Dec) (h : d.m = 0) : formatDec d = "0" := by
  unfold formatDec
  rw [normDec_zero d h]
  simp

/-! ## Helper lemmas: the shape of formatted output -/

theorem fmtBody_chars {a : Nat} {e : Int} {c : Char} (h : c ∈ fmtBody a e) :
    c ∈ '.' :: digitCharList := by
  unfold fmtBody at h
  split at h
  · rcases List.mem_append.mp h with h | h
    · exact List.mem_cons_of_mem _ (mem_natToChars h)
    · rw [List.eq_of_mem_replicate h]; decide
  · simp only [] at h
    split at h
    · rcases List.mem_append.mp h with h | h
      · exact List.mem_cons_of_mem _ (mem_natToChars (List.take_subset _ _ h))
      · rcases List.mem_cons.mp h with h | h
        · rw [h]; exact List.mem_cons_self _ _
        · exact List.mem_cons_of_mem _ (mem_natToChars (List.drop_subset _ _ h))
    · rcases List.mem_cons.mp h with h | h
      · rw [h]; decide
      · rcases List.mem_cons.mp h with h | h
        · rw [h]; exact List.mem_cons_self _ _
        · rcases List.mem_append.mp h with h | h
          · rw [List.eq_of_mem_replicate h]; decide
          · exact List.mem_cons_of_mem _ (mem_natToChars h)

theorem fmtBody_head (a : Nat) (e : Int) (ha : a ≠ 0) :
    ∃ (c : Char) (rest : List Char), fmtBody a e = c :: rest ∧ c ∈ digitCharList := by
  obtain ⟨c0, ds0, hds⟩ := List.exists_cons_of_ne_nil (natToChars_ne_nil ha)
  have hc0 : c0 ∈ digitCharList := mem_natToChars (by rw [hds]; exact List.mem_cons_self _ _)
  unfold fmtBody
  split
  · exact ⟨c0, _, by rw [hds, List.cons_append], hc0⟩
  · next he =>
    simp only []
    split
    · next hk =>
      obtain ⟨j, hj⟩ : ∃ j, (natToChars a).length - (-e).toNat = j + 1 :=
        ⟨(natToChars a).length - (-e).toNat - 1, by omega⟩
      refine ⟨c0, List.take j ds0 ++ '.' :: List.drop j ds0, ?_, hc0⟩
      rw [hj, hds, List.take_succ_cons, List.drop_succ_cons, List.cons_append]
    · exact ⟨'0', _, rfl, by decide⟩

theorem parseUnsigned_fmtBody (a : Nat) (e : Int) (ha : a ≠ 0) :
    parseUnsigned (fmtBody a e) =
      some (if 0 ≤ e then a * 10 ^ e.toNat else a, if 0 ≤ e then 0 else e) := by
  have hds : ∀ c ∈ natToChars a, c ∈ digitCharList := fun _ hc => mem_natToChars hc
  have hne : natToChars a ≠ [] := natToChars_ne_nil ha
  unfold fmtBody
  by_cases he : 0 ≤ e
  · rw [if_pos he, if_pos he, if_pos he,
      parseUnsigned_digits _ _ hds hne, charsToNat_natToChars]
  · rw [if_neg he, if_neg he, if_neg he]
    by_cases hlt : (-e).toNat < (natToChars a).length
    · rw [if_pos hlt]
      have htake : ∀ c ∈ (natToChars a).take ((natToChars a).length - (-e).toNat),
          c ∈ digitCharList := fun c hc => hds c (List.take_subset _ _ hc)
      have hdrop : ∀ c ∈ (natToChars a).drop ((natToChars a).length - (-e).toNat),
          c ∈ digitCharList := fun c hc => hds c (List.drop_subset _ _ hc)
      rw [parseUnsigned_frac _ _ htake hdrop (by rw [List.take_append_drop]; exact hne)]
      rw [List.take_append_drop, charsToNat_natToChars]
      have hlen : -(((natToChars a).drop ((natToChars a).length - (-e).toNat)).length : Int) = e := by
        rw [List.length_drop]
        omega
      rw [hlen]
    · rw [if_neg hlt]
      have h2 : ∀ c ∈ List.replicate ((-e).toNat - (natToChars a).length) '0' ++ natToChars a,
          c ∈ digitCharList := by
        intro c hc
        rcases List.mem_append.mp hc with h | h
        · rw [List.eq_of_mem_replicate h]; decide
        · exact hds c h
      have hshape : ('0' :: '.' ::
            (List.replicate ((-e).toNat - (natToChars a).length) '0' ++ natToChars a))
          = ['0'] ++ '.' ::
            (List.replicate ((-e).toNat - (natToChars a).length) '0' ++ natToChars a) := rfl
      rw [hshape, parseUnsigned_frac _ _ (by intro c hc; simp at hc; rw [hc]; decide) h2
        (by simp)]
      have hval : charsToNat (['0'] ++
          (List.replicate ((-e).toNat - (natToChars a).length) '0' ++ natToChars a)) = a := by
        rw [show (['0'] ++ (List.replicate ((-e).toNat - (natToChars a).length) '0'
              ++ natToChars a))
            = List.replicate (((-e).toNat - (natToChars a).length) + 1) '0' ++ natToChars a
          from by rw [List.replicate_succ]; rfl]
        rw [charsToNat_zeros_append, charsToNat_natToChars]
      have hlen : -(((List.replicate ((-e).toNat - (natToChars a).length) '0'
          ++ natToChars a)).length : Int) = e := by
        rw [List.length_append, List.length_replicate]
        omega
      rw [hval, hlen]

/-! ## Helper lemmas: parse after format -/

theorem parseDec_digit_head {c : Char} {cs : List Char} (hc : c ∈ digitCharList)
    (hno : '_' ∉ c :: cs) :
    parseDec (c :: cs) = (parseUnsigned (c :: cs)).map fun p => (⟨(p.1 : Int), p.2⟩ : Dec) := by
  have hcontains : (c :: cs).contains '_' = false := by simpa using hno
  have hcs := ne_of_mem_digitCharList hc
  unfold parseDec
  rw [hcontains]
  simp [hcs.1, hcs.2.1]

theorem parseDec_neg_head {cs : List Char} (hno : '_' ∉ '-' :: cs) :
    parseDec ('-' :: cs) = (parseUnsigned cs).map fun p => (⟨-(p.1 : Int), p.2⟩ : Dec) := by
  have hcontains : ('-' :: cs).contains '_' = false := by simpa using hno
  unfold parseDec
  rw [hcontains]
  simp

theorem formatDec_posm (d : Dec) (a0 : Nat) (E : Int) (ha0 : a0 ≠ 0)
    (hnorm : normDec d = ⟨(a0 : Int), E⟩) :
    formatDec d = String.mk (fmtBody a0 E) := by
  unfold formatDec
  rw [hnorm]
  have h1 : ¬ ((a0 : Int) = 0) := by exact_mod_cast ha0
  have h2 : ¬ ((a0 : Int) < 0) := not_lt.mpr (Int.natCast_nonneg _)
  simp [h1, h2]

theorem formatDec_negm (d : Dec) (a0 : Nat) (E : Int) (ha0 : a0 ≠ 0)
    (hnorm : normDec d = ⟨-(a0 : Int), E⟩) :
    formatDec d = String.mk ('-' :: fmtBody a0 E) := by
  unfold formatDec
  rw [hnorm]
  have h0 : 0 < (a0 : Int) := by exact_mod_cast Nat.pos_of_ne_zero ha0
  have h1 : ¬ (-(a0 : Int) = 0) := by omega
  have h2 : -(a0 : Int) < 0 := by omega
  simp [h1, h2]

theorem normDec_unparse_pos (a0 : Nat) (E : Int) (ha0 : a0 ≠ 0) (h10 : ¬ 10 ∣ a0) :
    normDec ⟨((if 0 ≤ E then a0 * 10 ^ E.toNat else a0 : Nat) : Int), if 0 ≤ E then 0 else E⟩
      = ⟨(a0 : Int), E⟩ := by
  by_cases hE : 0 ≤ E
  · rw [if_pos hE, if_pos hE]
    have habs2 : (((a0 * 10 ^ E.toNat : Nat) : Int)).natAbs = a0 * 10 ^ E.toNat :=
      Int.natAbs_ofNat _
    rw [normDec_of_decomp _ 0 a0 E.toNat ha0 h10 habs2,
      if_neg (not_lt.mpr (Int.natCast_nonneg _))]
    congr 1
    omega
  · rw [if_neg hE, if_neg hE]
    have habs2 : ((a0 : Int)).natAbs = a0 * 10 ^ 0 := by simp
    rw [normDec_of_decomp _ E a0 0 ha0 h10 habs2,
      if_neg (not_lt.mpr (Int.natCast_nonneg _))]
    congr 1
    omega

theorem normDec_unparse_neg (a0 : Nat) (E : Int) (ha0 : a0 ≠ 0) (h10 : ¬ 10 ∣ a0) :
    normDec ⟨-((if 0 ≤ E then a0 * 10 ^ E.toNat else a0 : Nat) : Int), if 0 ≤ E then 0 else E⟩
      = ⟨-(a0 : Int), E⟩ := by
  by_cases hE : 0 ≤ E
  · rw [if_pos hE, if_pos hE]
    have hpos : 0 < ((a0 * 10 ^ E.toNat : Nat) : Int) := by
      exact_mod_cast Nat.pos_of_ne_zero (Nat.mul_ne_zero ha0 (pow_ne_zero _ (by norm_num)))
    have habs2 : (-(((a0 * 10 ^ E.toNat : Nat) : Int))).natAbs = a0 * 10 ^ E.toNat := by
      rw [Int.natAbs_neg, Int.natAbs_ofNat]
    rw [normDec_of_decomp _ 0 a0 E.toNat ha0 h10 habs2, if_pos (by omega)]
    congr 1
    omega
  · rw [if_neg hE, if_neg hE]
    have hpos : 0 < (a0 : Int) := by exact_mod_cast Nat.pos_of_ne_zero ha0
    have habs2 : ((-(a0 : Int))).natAbs = a0 * 10 ^ 0 := by simp
    rw [normDec_of_decomp _ E a0 0 ha0 h10 habs2, if_pos (by omega)]
    congr 1
    omega

/-- Round trip: parsing a FormatFloat rendering succeeds, re-rendering the
parsed value gives the identical string, and the parsed mantissa has the
sign of the rendered value. -/
theorem parse_formatDec (d : Dec) :
    ∃ d' : Dec, parseGoFloat (formatDec d) = some d' ∧ formatDec d' = formatDec d ∧
      (0 ≤ d.m → 0 ≤ d'.m) := by
  by_cases hz : d.m = 0
  · refine ⟨⟨0, 0⟩, ?_, ?_, fun _ => le_refl 0⟩
    · rw [formatDec_zero d hz]; decide
    · rw [formatDec_zero d hz]; decide
  · obtain ⟨a0, j, ha0, h10, habs, hnorm⟩ := normDec_spec d hz
    have hnomem : '_' ∉ fmtBody a0 (d.e + j) := fun hmem => by
      have hin := fmtBody_chars hmem
      revert hin
      decide
    by_cases hneg : d.m < 0
    · rw [if_pos hneg] at hnorm
      have hfd : formatDec d = String.mk ('-' :: fmtBody a0 (d.e + j)) :=
        formatDec_negm d a0 _ ha0 hnorm
      have hparse : parseGoFloat (formatDec d)
          = (parseUnsigned (fmtBody a0 (d.e + j))).map
              fun p => (⟨-(p.1 : Int), p.2⟩ : Dec) := by
        rw [hfd]
        show parseDec ('-' :: fmtBody a0 (d.e + j)) = _
        refine parseDec_neg_head ?_
        intro hmem
        rcases List.mem_cons.mp hmem with h | h
        · exact absurd h (by decide)
        · exact hnomem h
      rw [parseUnsigned_fmtBody a0 _ ha0] at hparse
      simp only [Option.map_some'] at hparse
      refine ⟨_, hparse, ?_, fun h => absurd h (by omega)⟩
      apply formatDec_congr
      rw [normDec_unparse_neg a0 _ ha0 h10, hnorm]
    · rw [if_neg hneg] at hnorm
      have hfd : formatDec d = String.mk (fmtBody a0 (d.e + j)) :=
        formatDec_posm d a0 _ ha0 hnorm
      obtain ⟨c, rest, hcr, hcd⟩ := fmtBody_head a0 (d.e + j) ha0
      have hparse : parseGoFloat (formatDec d)
          = (parseUnsigned (fmtBody a0 (d.e + j))).map
              fun p => (⟨(p.1 : Int), p.2⟩ : Dec) := by
        rw [hfd]
        show parseDec (fmtBody a0 (d.e + j)) = _
        rw [hcr]
        rw [parseDec_digit_head hcd (by rw [← hcr]; exact hnomem), ← hcr]
      rw [parseUnsigned_fmtBody a0 _ ha0] at hparse
      simp only [Option.map_some'] at hparse
      refine ⟨_, hparse, ?_, fun _ => Int.natCast_nonneg _⟩
      apply formatDec_congr
      rw [normDec_unparse_pos a0 _ ha0 h10, hnorm]

/-! ## Helper lemmas: character content and sign of formatted amounts -/

theorem formatDec_chars {d : Dec} {c : Char} (h : c ∈ (formatDec d).data) :
    c ∈ '-' :: '.' :: digitCharList := by
  by_cases hz : d.m = 0
  · rw [formatDec_zero d hz] at h
    have : c = '0' := by simpa using h
    rw [this]; decide
  · obtain ⟨a0, j, ha0, h10, habs, hnorm⟩ := normDec_spec d hz
    by_cases hneg : d.m < 0
    · rw [if_pos hneg] at hnorm
      rw [formatDec_negm d a0 _ ha0 hnorm] at h
      replace h : c ∈ '-' :: fmtBody a0 (d.e + j) := h
      rcases List.mem_cons.mp h with h | h
      · rw [h]; exact List.mem_cons_self _ _
      · exact List.mem_cons_of_mem _ (fmtBody_chars h)
    · rw [if_neg hneg] at hnorm
      rw [formatDec_posm d a0 _ ha0 hnorm] at h
      replace h : c ∈ fmtBody a0 (d.e + j) := h
      exact List.mem_cons_of_mem _ (fmtBody_chars h)

theorem startsWithNeg_formatDec {d : Dec} (h : 0 ≤ d.m) :
    startsWithNeg (formatDec d) = false := by
  by_cases hz : d.m = 0
  · rw [formatDec_zero d hz]; decide
  · obtain ⟨a0, j, ha0, h10, habs, hnorm⟩ := normDec_spec d hz
    rw [if_neg (by omega)] at hnorm
    rw [formatDec_posm d a0 _ ha0 hnorm]
    obtain ⟨c, rest, hcr, hcd⟩ := fmtBody_head a0 (d.e + j) ha0
    rw [hcr]
    have hcne : c ≠ '-' := (ne_of_mem_digitCharList hcd).1
    simp [startsWithNeg, hcne]

theorem formatDec_no_comma {d : Dec} {c : Char} (h : c ∈ (formatDec d).data) : c ≠ ',' := by
  have := formatDec_chars h
  revert this
  intro hmem hc
  rw [hc] at hmem
  revert hmem
  decide

/-! ## Helper lemmas: the sign of a parsed value follows the string's head -/

theorem parseDec_m_nonpos {cs : List Char} {d : Dec}
    (h : parseDec ('-' :: cs) = some d) : d.m ≤ 0 := by
  unfold parseDec at h
  split at h
  · exact absurd h (by simp)
  · simp only [reduceIte] at h
    rcases Option.map_eq_some'.mp h with ⟨p, _, hp⟩
    rw [← hp]
    have : (0 : Int) ≤ (p.1 : Int) := Int.natCast_nonneg _
    simp only [Dec.mk.injEq]
    omega

theorem parseDec_m_nonneg {c : Char} {cs : List Char} {d : Dec} (hc : c ≠ '-')
    (h : parseDec (c :: cs) = some d) : 0 ≤ d.m := by
  unfold parseDec at h
  split at h
  · exact absurd h (by simp)
  · simp only [hc, if_false, ite_false, reduceIte] at h
    by_cases hp : c = '+'
    · simp only [hp, reduceIte] at h
      rcases Option.map_eq_some'.mp h with ⟨p, _, hp2⟩
      rw [← hp2]
      exact Int.natCast_nonneg _
    · simp only [hp, if_false, ite_false, reduceIte] at h
      rcases Option.map_eq_some'.mp h with ⟨p, _, hp2⟩
      rw [← hp2]
      exact Int.natCast_nonneg _

/-! ## Helper lemmas: the row loop and the ledger -/

theorem processRow_none_iff (i : Nat) (row : Row) :
    processRow i row = none ↔
      i = 0 ∨ row.length < 39 ∨ stripCommas (row.getD 37 "") = "" ∨
        stripCommas (row.getD 37 "") = "Amount" ∨
        parseGoFloat (stripCommas (row.getD 37 "")) = none := by
  simp only [processRow]
  constructor
  · intro h
    split at h
    · next h1 => tauto
    · next h1 =>
      split at h
      · next h2 => tauto
      · next h2 =>
        split at h
        · next hp => tauto
        · next d hp => split at h <;> simp at h
  · intro h
    split
    · rfl
    · next h1 =>
      split
      · rfl
      · next h2 =>
        split
        · rfl
        · next d hp =>
          exfalso
          rcases h with h | h | h | h | h
          · exact h1 (Or.inl h)
          · exact h1 (Or.inr h)
          · exact h2 (Or.inl h)
          · exact h2 (Or.inr h)
          · rw [hp] at h; simp at h

theorem processRow_some_shape {i : Nat} {row : Row} {pr : Bool × List String}
    (h : processRow i row = some pr) :
    ∃ d : Dec, parseGoFloat (stripCommas (row.getD 37 "")) = some d ∧
      pr = (startsWithNeg (stripCommas (row.getD 37 "")),
        [row.getD 0 "", row.getD 24 "",
         formatDec (if startsWithNeg (stripCommas (row.getD 37 "")) then Dec.neg d else d)]) := by
  simp only [processRow] at h
  split at h
  · simp at h
  · split at h
    · simp at h
    · split at h
      · simp at h
      · next d hp =>
        refine ⟨d, hp, ?_⟩
        split at h
        · next hs =>
          simp only [Option.some.injEq] at h
          rw [← h, if_pos hs, hs]
          rfl
        · next hs =>
          simp only [Option.some.injEq] at h
          rw [← h, if_neg hs]
          have : startsWithNeg (stripCommas (row.getD 37 "")) = false :=
            Bool.eq_false_iff.mpr hs
          rw [this]

theorem mem_ledger {wb : Workbook} {recs : List (Bool × List String)}
    (h : ledgerOf wb = .ok recs) {pr : Bool × List String} (hm : pr ∈ recs) :
    ∃ (i : Nat) (row : Row), processRow i row = some pr := by
  induction wb generalizing recs with
  | nil =>
    simp only [ledgerOf, Except.ok.injEq] at h
    rw [← h] at hm
    simp at hm
  | cons s rest ih =>
    simp only [ledgerOf] at h
    cases hc : cleanSheet s with
    | error e => rw [hc] at h; simp [Except.bind] at h
    | ok r =>
      rw [hc] at h
      cases hr : ledgerOf rest with
      | error e => rw [hr] at h; simp [Except.bind] at h
      | ok rs =>
        rw [hr] at h
        simp only [Except.bind, pure, Except.pure, Except.ok.injEq] at h
        rw [← h] at hm
        rcases List.mem_append.mp hm with hmem | hmem
        · -- the record came from this sheet's row loop
          simp only [cleanSheet] at hc
          cases ht : trimSheet s.rows with
          | error e => rw [ht] at hc; simp [Except.bind] at hc
          | ok t =>
            rw [ht] at hc
            simp only [Except.bind] at hc
            split at hc
            · simp only [pure, Except.pure, Except.ok.injEq] at hc
              rw [← hc] at hmem
              simp at hmem
            · simp only [pure, Except.pure, Except.ok.injEq] at hc
              rw [← hc] at hmem
              obtain ⟨p, _, hp⟩ := List.mem_filterMap.mp hmem
              exact ⟨p.1, p.2, hp⟩
        · exact ih hr hmem

theorem enumFrom_short_records (rows : List Row) :
    ∀ n : Nat, (∀ r ∈ rows, r.length < 39) →
      (rows.enumFrom n).filterMap (fun p => processRow p.1 p.2) = [] := by
  induction rows with
  | nil => intro n _; simp
  | cons r rest ih =>
    intro n h
    simp only [List.enumFrom_cons, List.filterMap_cons]
    rw [(processRow_none_iff n r).mpr (Or.inr (Or.inl (h r (by simp))))]
    exact ih (n + 1) fun x hx => h x (by simp [hx])

theorem sheetRecords_short (rows : List Row) (h : ∀ r ∈ rows, r.length < 39) :
    sheetRecords rows = [] := by
  unfold sheetRecords
  exact enumFrom_short_records rows 0 h

theorem trimSheet_nil : trimSheet ([] : List Row) = .error "invalid row number" := by decide

theorem cleanSheet_empty_rows (s : Sheet) (h : s.rows = []) :
    cleanSheet s = .error "invalid row number" := by
  unfold cleanSheet
  rw [h, trimSheet_nil]

theorem ledger_error_of_empty_sheet : ∀ wb : Workbook, (∃ s ∈ wb, s.rows = []) →
    ∃ msg, ledgerOf wb = .error msg := by
  intro wb
  induction wb with
  | nil => rintro ⟨s, hs, _⟩; simp at hs
  | cons s0 rest ih =>
    rintro ⟨s, hs, hrows⟩
    rcases List.mem_cons.mp hs with rfl | hs
    · exact ⟨_, by simp only [ledgerOf]; rw [cleanSheet_empty_rows s hrows]⟩
    · cases hc : cleanSheet s0 with
      | error e => exact ⟨e, by simp only [ledgerOf]; rw [hc]⟩
      | ok r =>
        obtain ⟨msg, hmsg⟩ := ih ⟨s, hs, hrows⟩
        refine ⟨msg, ?_⟩
        simp only [ledgerOf]
        rw [hc, hmsg]

theorem parse_nonpos_of_startsWithNeg {s : String} {d : Dec}
    (h : parseGoFloat s = some d) (hs : startsWithNeg s = true) : d.m ≤ 0 := by
  unfold parseGoFloat at h
  unfold startsWithNeg at hs
  cases hd : s.data with
  | nil => rw [hd] at hs; simp at hs
  | cons c cs =>
    rw [hd] at hs h
    have hc : c = '-' := by simpa using hs
    rw [hc] at h
    exact parseDec_m_nonpos h

theorem parse_nonneg_of_not_startsWithNeg {s : String} {d : Dec}
    (h : parseGoFloat s = some d) (hs : startsWithNeg s = false) : 0 ≤ d.m := by
  unfold parseGoFloat at h
  unfold startsWithNeg at hs
  cases hd : s.data with
  | nil =>
    rw [hd] at h
    have hnone : parseDec ([] : List Char) = none := by decide
    rw [hnone] at h
    exact absurd h (by simp)
  | cons c cs =>
    rw [hd] at hs h
    have hc : c ≠ '-' := by simpa using hs
    exact parseDec_m_nonneg hc h

theorem sheets_ext : ∀ w1 w2 : Workbook,
    w1.map Sheet.name = w2.map Sheet.name →
    w1.map Sheet.merges = w2.map Sheet.merges →
    w1.map Sheet.rows = w2.map Sheet.rows → w1 = w2
  | [], [], _, _, _ => rfl
  | [], _ :: _, h, _, _ => by simp at h
  | _ :: _, [], h, _, _ => by simp at h
  | s1 :: r1, s2 :: r2, h1, h2, h3 => by
    simp only [List.map_cons, List.cons.injEq] at h1 h2 h3
    have hrest := sheets_ext r1 r2 h1.2 h2.2 h3.2
    cases s1
    cases s2
    simp_all

/-! ## Claim theorems -/

/-- C1: for every retained row whose comma-stripped amount at column 37
parses, the row produces exactly one record in exactly one bucket: a
Credit (flag `true`) whose amount is the canonical rendering of the
negated parsed value when the cleaned string starts with a minus,
otherwise a Debit (flag `false`) with the canonical rendering unchanged —
never both buckets, never neither. -/
theorem c1_bucket_decision (i : Nat) (row : Row) (d : Dec)
    (hi : i ≠ 0) (hlen : 39 ≤ row.length)
    (hne : stripCommas (row.getD 37 "") ≠ "")
    (hna : stripCommas (row.getD 37 "") ≠ "Amount")
    (hp : parseGoFloat (stripCommas (row.getD 37 "")) = some d) :
    processRow i row =
      some (startsWithNeg (stripCommas (row.getD 37 "")),
        [row.getD 0 "", row.getD 24 "",
         formatDec (if startsWithNeg (stripCommas (row.getD 37 "")) then Dec.neg d else d)]) := by
  simp only [processRow]
  rw [if_neg (by push_neg; exact ⟨hi, by omega⟩), if_neg (by push_neg; exact ⟨hne, hna⟩), hp]
  split
  · next hs => simp at hs
  · next amount hs =>
    injection hs with hda
    subst hda
    split
    · next hs2 => rw [hs2]; rfl
    · next hs2 => rw [Bool.eq_false_iff.mpr hs2]

/-- C1 witness: a row with raw amount "-1,234.50" gives exactly one
Credit record with amount "1234.5"; raw "500" gives exactly one Debit
record with amount "500". -/
theorem c1_witness :
    processRow 1 (mkDataRow "R" "M" "-1,234.50") = some (true, ["R", "M", "1234.5"]) ∧
    processRow 1 (mkDataRow "R" "M" "500") = some (false, ["R", "M", "500"]) := by
  constructor
  · exact c1_bucket_decision 1 (mkDataRow "R" "M" "-1,234.50") ⟨-123450, -2⟩
      (by decide) (by decide) (by decide) (by decide) (by decide)
  · exact c1_bucket_decision 1 (mkDataRow "R" "M" "500") ⟨500, 0⟩
      (by decide) (by decide) (by decide) (by decide) (by decide)

/-- C2 evaluated at the failing input: trimming a 40-row sheet does not
keep exactly original row 26 (which the claim's "rows 26 through n-14"
demands); the removals run against the live re-indexing collection and
delete alternating rows, leaving original rows
2,4,6,8,10,12,16,20,24,28,32,36,40. -/
theorem c2_trim_failing_input :
    trimSheet rows40 =
      .ok [["2"], ["4"], ["6"], ["8"], ["10"], ["12"], ["16"], ["20"], ["24"], ["28"],
        ["32"], ["36"], ["40"]] ∧
    trimSheet rows40 ≠ .ok [["26"]] := by
  exact ⟨by decide, by decide⟩

/-- C3 evaluated at the failing input: the spec's end-to-end workbook
(26 header rows, the REF1, MEMO1, -100 data row, 14 footer rows) yields
empty credits and debits — the data row is deleted by the alternating
removals — instead of the claimed credits.csv = "REF1,MEMO1,100\n". -/
theorem c3_end_to_end_failing_input :
    CleanSpreadsheet wbEndToEnd = .ok ("", "") ∧
    CleanSpreadsheet wbEndToEnd ≠ .ok ("REF1,MEMO1,100\n", "") := by
  exact ⟨by decide, by decide⟩

/-- C4 counterexample: a sheet with 13 rows remaining after the trim
(fewer than 40) still contributes a record — its post-trim row index 1
is a 39-cell data row, and the workbook's debit output is non-empty. -/
theorem c4_counterexample :
    (trimSheet rows41).map List.length = .ok 13 ∧
    CleanSpreadsheet wbFewRows = .ok ("", "REF,MEMO,500\n") := by
  exact ⟨by decide, by decide⟩

/-- C4 amended: a sheet each of whose post-trim rows has fewer than 39
cells contributes zero records to the Ledger. -/
theorem c4_amended (rows t : List Row) (_htrim : trimSheet rows = .ok t)
    (hshort : ∀ r ∈ t, r.length < 39) : sheetRecords t = [] :=
  sheetRecords_short t hshort

/-- C4 amended witness: the 28-row sheet trims to 7 one-cell rows, all
shorter than 39 cells, and contributes no record. -/
theorem c4_witness :
    sheetRecords [["4"], ["8"], ["12"], ["16"], ["20"], ["24"], ["28"]] = [] :=
  c4_amended rows28 _ (by decide) (by decide)

/-- C5: a row is skipped (contributes to neither bucket) precisely when
its post-trim index is 0, or it has fewer than 39 cells, or its
comma-stripped amount is empty or the literal "Amount", or the cleaned
amount fails to parse; otherwise it produces a record. -/
theorem c5_skip_iff (i : Nat) (row : Row) :
    processRow i row = none ↔
      i = 0 ∨ row.length < 39 ∨ stripCommas (row.getD 37 "") = "" ∨
        stripCommas (row.getD 37 "") = "Amount" ∨
        parseGoFloat (stripCommas (row.getD 37 "")) = none :=
  processRow_none_iff i row

/-- C6 counterexample: a workbook whose first sheet is empty makes the
transform return an error — the footer trim calls row removal with a row
number below 1 — so the empty sheet is not skipped and the following
sheet (which would have produced a record) is never processed. -/
theorem c6_counterexample :
    CleanSpreadsheet wbEmptySheet = .error "invalid row number" := by decide

/-- C6 amended: the empty-after-trim check exists, but an empty sheet
never reaches it: any workbook containing a sheet with no rows makes
CleanSpreadsheet return an error instead of skipping the sheet. -/
theorem c6_amended (wb : Workbook) (h : ∃ s ∈ wb, s.rows = ([] : List Row)) :
    ∃ msg, CleanSpreadsheet wb = .error msg := by
  obtain ⟨msg, hmsg⟩ := ledger_error_of_empty_sheet wb h
  refine ⟨msg, ?_⟩
  unfold CleanSpreadsheet
  rw [hmsg]
  rfl

/-- C6 amended witness: the concrete two-sheet workbook with an empty
first sheet errors. -/
theorem c6_witness : ∃ msg, CleanSpreadsheet wbEmptySheet = .error msg :=
  c6_amended wbEmptySheet ⟨⟨"Empty", [], []⟩, by decide, rfl⟩

/-- C7: every record the ledger emits carries a non-negative canonical
decimal amount: the amount string parses, the parsed mantissa is
non-negative, re-rendering returns the identical string, the string does
not start with a minus sign, and it contains no comma. -/
theorem c7_amount_invariant (wb : Workbook) (recs : List (Bool × List String))
    (h : ledgerOf wb = .ok recs) :
    ∀ pr ∈ recs, ∃ d' : Dec,
      parseGoFloat (pr.2.getD 2 "") = some d' ∧ 0 ≤ d'.m ∧
      formatDec d' = pr.2.getD 2 "" ∧
      startsWithNeg (pr.2.getD 2 "") = false ∧
      ∀ c ∈ (pr.2.getD 2 "").data, c ≠ ',' := by
  intro pr hm
  obtain ⟨i, row, hpr⟩ := mem_ledger h hm
  obtain ⟨d, hp, hshape⟩ := processRow_some_shape hpr
  have hamt : pr.2.getD 2 "" =
      formatDec (if startsWithNeg (stripCommas (row.getD 37 "")) then Dec.neg d else d) := by
    rw [hshape]; rfl
  have hd2n : 0 ≤ (if startsWithNeg (stripCommas (row.getD 37 "")) then Dec.neg d else d).m := by
    by_cases hs : startsWithNeg (stripCommas (row.getD 37 "")) = true
    · rw [if_pos hs]
      have hd := parse_nonpos_of_startsWithNeg hp hs
      show 0 ≤ -d.m
      omega
    · rw [if_neg hs]
      exact parse_nonneg_of_not_startsWithNeg hp (Bool.eq_false_iff.mpr hs)
  rw [hamt]
  obtain ⟨d', hp', hfmt', hsign'⟩ := parse_formatDec _
  exact ⟨d', hp', hsign' hd2n, hfmt', startsWithNeg_formatDec hd2n,
    fun c hc => formatDec_no_comma hc⟩

/-- C7 witness: the single record of the concrete workbook carries the
canonical non-negative amount "500". -/
theorem c7_witness :
    ∃ d' : Dec, parseGoFloat "500" = some d' ∧ 0 ≤ d'.m ∧ formatDec d' = "500" ∧
      startsWithNeg "500" = false ∧ ∀ c ∈ "500".data, c ≠ ',' := by
  exact c7_amount_invariant wbFewRows [(false, ["REF", "MEMO", "500"])] (by decide)
    (false, ["REF", "MEMO", "500"]) (by decide)

/-- C8: canonicalization is idempotent — every emitted amount string
parses, and re-rendering the parsed value in canonical form yields the
identical string. -/
theorem c8_idempotent (wb : Workbook) (recs : List (Bool × List String))
    (h : ledgerOf wb = .ok recs) :
    ∀ pr ∈ recs, ∃ d' : Dec,
      parseGoFloat (pr.2.getD 2 "") = some d' ∧ formatDec d' = pr.2.getD 2 "" := by
  intro pr hm
  obtain ⟨i, row, hpr⟩ := mem_ledger h hm
  obtain ⟨d, hp, hshape⟩ := processRow_some_shape hpr
  have hamt : pr.2.getD 2 "" =
      formatDec (if startsWithNeg (stripCommas (row.getD 37 "")) then Dec.neg d else d) := by
    rw [hshape]; rfl
  rw [hamt]
  obtain ⟨d', hp', hfmt', _⟩ := parse_formatDec _
  exact ⟨d', hp', hfmt'⟩

/-- C8 witness: the emitted amount "500" re-parses and re-renders to
itself. -/
theorem c8_witness :
    ∃ d' : Dec, parseGoFloat "500" = some d' ∧ formatDec d' = "500" := by
  exact c8_idempotent wbFewRows [(false, ["REF", "MEMO", "500"])] (by decide)
    (false, ["REF", "MEMO", "500"]) (by decide)

/-- C9: when the transform succeeds and at least one blob is non-empty,
the response is an archive with exactly the two entries credits.csv and
debits.csv holding the two blobs (an empty blob is still written); when
both blobs are empty, or the transform failed, the request fails and no
archive is produced. -/
theorem c9_archive (creditCSV debitCSV : String) :
    (¬ (creditCSV = "" ∧ debitCSV = "") →
      uploadRespond (.ok (creditCSV, debitCSV)) =
        .ok [("credits.csv", creditCSV), ("debits.csv", debitCSV)]) ∧
    (creditCSV = "" ∧ debitCSV = "" →
      uploadRespond (.ok (creditCSV, debitCSV)) = .error "No data processed from the file") ∧
    (∀ e : String, uploadRespond (.error e) = .error ("Error processing file: " ++ e)) := by
  refine ⟨fun h => ?_, fun h => ?_, fun e => rfl⟩
  · simp only [uploadRespond]
    rw [if_neg h]
  · simp only [uploadRespond]
    rw [if_pos h]

/-- C9 witness: a non-empty credit blob yields the two-entry archive; two
empty blobs yield the failure response. -/
theorem c9_witness :
    uploadRespond (.ok ("REF1,MEMO1,100\n", "")) =
      .ok [("credits.csv", "REF1,MEMO1,100\n"), ("debits.csv", "")] ∧
    uploadRespond (.ok ("", "")) = .error "No data processed from the file" :=
  ⟨(c9_archive "REF1,MEMO1,100\n" "").1 (by decide), (c9_archive "" "").2.1 ⟨rfl, rfl⟩⟩

/-- C10: determinism — two workbooks with identical sheet name lists,
merge regions and cell grids produce identical (credits, debits) pairs;
the output depends only on workbook content. -/
theorem c10_deterministic (w1 w2 : Workbook)
    (hn : w1.map Sheet.name = w2.map Sheet.name)
    (hm : w1.map Sheet.merges = w2.map Sheet.merges)
    (hr : w1.map Sheet.rows = w2.map Sheet.rows) :
    CleanSpreadsheet w1 = CleanSpreadsheet w2 := by
  rw [sheets_ext w1 w2 hn hm hr]

/-- C10 witness: two syntactically different workbooks with the same
names, merges and grids give the same output. -/
theorem c10_witness :
    CleanSpreadsheet wbFewRows = CleanSpreadsheet [⟨"S", List.replicate 0 ("a", "b"), rows41⟩] :=
  c10_deterministic _ _ (by decide) (by decide) (by decide)

end CleanSvc
